import Mathlib

/-!
Verification of the WeCrawler crawl engine (Go package `webcrawler`).

The Go source is shallowly embedded:

* `IsProductURL` embeds the regex `/product/|/item/|/p/|/dp/` applied with
  `MatchString` to the whole URL string; since the regex is an alternation of
  literals, it is substring containment of one of the four markers.
* `resolveURL`, `isSameDomain` and `ParseLinks` are embedded parametrically
  over the standard-library URL parser (`net/url`), which is an external
  collaborator: `parse : String → Option GoURL` models `url.Parse` (`none` is
  a parse error), `resolveRef` models `URL.ResolveReference` and `toStr`
  models `URL.String`.  The control flow of the three Go functions is
  embedded exactly.
* `CrawlDomain` is embedded as a step function `crawlStep` on a crawl state
  (visited set, frontier, product list) plus a fuelled loop `crawlLoop`; the
  page environment (fetch + link extraction) is an association list
  `LinkGraph` from URL to extracted same-domain links, `none`/missing key
  modelling a fetch or parse failure.  Ghost fields record the order of
  fetches and the semaphore token events of each iteration.
* The buffered-channel semaphore is embedded as a guarded counter transition
  system (`semStep`/`semRun`); a send completes only while fewer than
  `Concurrency` tokens are outstanding.
-/

namespace WeCrawler


/-! ## Product classifier (source: `IsProductURL`, part_000 lines 41-44) -/

/-- Literal matcher: does `pat` occur at the head of `s`? -/
def matchHere (pat s : List Char) : Bool :=
  match pat, s with
  | [], _ => true
  | _ :: _, [] => false
  | p :: ps, c :: cs => p == c && matchHere ps cs


/-- Literal scanner: does `pat` occur anywhere inside `s`?  This is what the
Go regex `/product/|/item/|/p/|/dp/` computes for each literal alternative. -/
def matchSub (pat s : List Char) : Bool :=
  match s with
  | [] => pat.isEmpty
  | _ :: cs => matchHere pat s || matchSub pat cs


/-- Embeds `Crawler.IsProductURL`: the regex
`/product/|/item/|/p/|/dp/` tested with `MatchString` against the whole URL
string (not only its path component). -/
def IsProductURL (link : String) : Bool :=
  matchSub "/product/".toList link.toList || matchSub "/item/".toList link.toList ||
    matchSub "/p/".toList link.toList || matchSub "/dp/".toList link.toList


/-! ## URL resolver (source: `resolveURL` lines 172-182, `isSameDomain`
lines 185-195).

The Go standard library parser `net/url` is an external collaborator, so
the three capabilities the source uses — `url.Parse`, `URL.ResolveReference`
and `URL.String` — are parameters of the embedding; only the control flow of
the source functions is fixed.  `none` models a parse error. -/

/-- The fields of a parsed `url.URL` value that the source reads. -/
structure GoURL where
  host : String
  raw : String
deriving DecidableEq


/-- Embeds `resolveURL`: parse the base, parse the href, resolve the
reference and print it; return the empty string if either parse fails. -/
def resolveURL (parse : String → Option GoURL) (resolveRef : GoURL → GoURL → GoURL)
    (toStr : GoURL → String) (baseURL href : String) : String :=
  match parse baseURL with
  | none => ""
  | some parsedBase =>
    match parse href with
    | none => ""
    | some parsedHref => toStr (resolveRef parsedBase parsedHref)


/-- Embeds `isSameDomain`: parse both URLs and compare the `Host` fields;
return `false` if either parse fails. -/
def isSameDomain (parse : String → Option GoURL) (baseURL href : String) : Bool :=
  match parse baseURL with
  | none => false
  | some baseDomain =>
    match parse href with
    | none => false
    | some hrefDomain => baseDomain.host == hrefDomain.host


/-- Embeds `ParseLinks`: the HTML document is abstracted to its list of
anchor `href` attributes in document order (the goquery traversal
`doc.Find("a[href]").Each`); each is resolved against the base URL and kept
iff it is same-domain. -/
def ParseLinks (parse : String → Option GoURL) (resolveRef : GoURL → GoURL → GoURL)
    (toStr : GoURL → String) (anchors : List String) (baseURL : String) : List String :=
  anchors.foldl (fun links href =>
    let absoluteURL := resolveURL parse resolveRef toStr baseURL href
    if isSameDomain parse baseURL absoluteURL then links ++ [absoluteURL] else links) []


/-! A small concrete URL parser used only to instantiate the parametric
definitions on concrete inputs (witnesses and examples): parsing fails iff
the string contains a space; the host is the text between the first `//`
and the following `/`. -/

def dropToHost : List Char → List Char
  | [] => []
  | '/' :: '/' :: rest => rest
  | _ :: rest => dropToHost rest


def takeHost : List Char → List Char
  | [] => []
  | '/' :: _ => []
  | c :: rest => c :: takeHost rest


def hostOf (s : String) : String := String.mk (takeHost (dropToHost s.toList))


def testParse (s : String) : Option GoURL :=
  if s.toList.contains ' ' then none else some ⟨hostOf s, s⟩


def testResolveRef (base ref : GoURL) : GoURL :=
  if ref.host == "" then ⟨base.host, "https://" ++ base.host ++ ref.raw⟩ else ref


def testToStr (u : GoURL) : String := u.raw


/-! ## Domain traversal engine (source: `CrawlDomain`, part_000 lines 90-133)

The page environment (the composition of `Fetch` and `ParseLinks` seen by
the traversal loop) is an association list from URL to the list of extracted
same-domain links; a URL absent from the list models a fetch (or parse)
failure, which in the source releases the token and continues.  The state
carries two ghost fields: `fetchTrace`, the order in which `Fetch` is
called, and `events`, the sequence of semaphore operations and fetch calls
the iterations perform, in program order. -/

/-- Environment of one crawl: URL to extracted links, finite by
construction. -/
abbrev LinkGraph := List (String × List String)


/-- Semaphore and fetch events of the loop body, in program order. -/
inductive TokenEv where
  | acquire : TokenEv
  | release : TokenEv
  | fetch : String → TokenEv
deriving DecidableEq


/-- Look up the links extracted from the page at `u`; `none` models a fetch
failure (`Fetch` or `ParseLinks` returning an error). -/
def lookupLinks (g : LinkGraph) (u : String) : Option (List String) :=
  (g.find? (fun p => p.1 == u)).map (fun p => p.2)


/-- The loop-local state of `CrawlDomain` plus the two ghost traces. -/
structure CrawlState where
  visited : List String
  toVisit : List String
  products : List String
  fetchTrace : List String
  events : List TokenEv
deriving DecidableEq


/-- Embeds the `for _, link := range links` loop of `CrawlDomain`
(lines 121-129): a product link is appended to the product list and never
enqueued; a non-product link is appended to the frontier tail iff it is not
in the visited set.  The accumulator is the pair (products, frontier). -/
def processLinks (visited : List String) (acc : List String × List String)
    (links : List String) : List String × List String :=
  links.foldl (fun a link =>
    if IsProductURL link then (a.1 ++ [link], a.2)
    else if !visited.contains link then (a.1, a.2 ++ [link])
    else a) acc


/-- Embeds one iteration of the `for len(toVisit) > 0` loop of
`CrawlDomain` (lines 95-132): acquire the semaphore, pop the frontier head,
discard it (releasing) if already visited, otherwise mark it visited, fetch
it, and on success classify-or-enqueue every extracted link before
releasing. -/
def crawlStep (g : LinkGraph) (s : CrawlState) : CrawlState :=
  match s.toVisit with
  | [] => s
  | currentURL :: rest =>
    if s.visited.contains currentURL then
      { s with toVisit := rest,
               events := s.events ++ [TokenEv.acquire, TokenEv.release] }
    else
      let visited := s.visited ++ [currentURL]
      match lookupLinks g currentURL with
      | none =>
        { visited := visited, toVisit := rest, products := s.products,
          fetchTrace := s.fetchTrace ++ [currentURL],
          events := s.events ++
            [TokenEv.acquire, TokenEv.fetch currentURL, TokenEv.release] }
      | some links =>
        let pt := processLinks visited (s.products, rest) links
        { visited := visited, toVisit := pt.2, products := pt.1,
          fetchTrace := s.fetchTrace ++ [currentURL],
          events := s.events ++
            [TokenEv.acquire, TokenEv.fetch currentURL, TokenEv.release] }


/-- The fuelled loop; `CrawlDomain` terminates when the frontier is empty,
and `crawlLoop` additionally stops when the fuel runs out. -/
def crawlLoop (g : LinkGraph) : Nat → CrawlState → CrawlState
  | 0, s => s
  | fuel + 1, s => if s.toVisit = [] then s else crawlLoop g fuel (crawlStep g s)


/-- The initial state of `CrawlDomain domain`: empty visited set, frontier
seeded with `https://` ++ domain. -/
def initState (domain : String) : CrawlState :=
  { visited := [], toVisit := ["https://" ++ domain], products := [],
    fetchTrace := [], events := [] }


/-- Embeds `CrawlDomain` run for `fuel` iterations. -/
def CrawlDomain (g : LinkGraph) (domain : String) (fuel : Nat) : CrawlState :=
  crawlLoop g fuel (initState domain)


/-- All link occurrences in the environment (the codomain of the graph). -/
def allLinks : LinkGraph → List String
  | [] => []
  | p :: rest => p.2 ++ allLinks rest


/-- Total number of link occurrences in the environment; bounds how much one
iteration can grow the frontier. -/
def linkBound : LinkGraph → Nat
  | [] => 0
  | p :: rest => p.2.length + linkBound rest


/-- Every URL a crawl from `root` over `g` can ever see. -/
def urlUniverse (g : LinkGraph) (root : String) : List String :=
  root :: allLinks g


/-- Termination measure of the loop: unvisited universe weighted by the
maximal frontier growth, plus the frontier length. -/
def meas (g : LinkGraph) (root : String) (s : CrawlState) : Nat :=
  ((urlUniverse g root).toFinset \ s.visited.toFinset).card * (linkBound g + 1) +
    s.toVisit.length


/-- Fuel sufficient to drain the frontier of `CrawlDomain g domain`. -/
def fuelFor (g : LinkGraph) (domain : String) : Nat :=
  meas g ("https://" ++ domain) (initState domain)


/-- `CrawlDomain` run to completion (the fuel is provably sufficient). -/
def CrawlDomainRun (g : LinkGraph) (domain : String) : CrawlState :=
  CrawlDomain g domain (fuelFor g domain)


/-- Embeds `RunCrawler` (lines 150-160): one traversal per configured
domain; the result maps each configured domain to its discovered product
list (frontier, visited set and the per-domain product slice are private to
one traversal, so the concurrent run is observationally this map).  A
domain not configured has no entry, modelled as `[]`. -/
def RunCrawler (g : LinkGraph) (domains : List String) : String → List String :=
  fun d => if domains.contains d then (CrawlDomainRun g d).products else []


/-- Loop invariant of `CrawlDomain`: the frontier stays inside the URL
universe, the visited set has no duplicates, and the fetch trace is exactly
the visited set in insertion order. -/
def CrawlInv (g : LinkGraph) (root : String) (s : CrawlState) : Prop :=
  (∀ u ∈ s.toVisit, u ∈ urlUniverse g root) ∧ s.visited.Nodup ∧
    s.fetchTrace = s.visited


/-! ## Crawler construction and the admission semaphore
(source: `Crawler` lines 20-27, `CreateNewCrawler` lines 30-38)

The Go semaphore is a buffered channel of capacity `concurrency`: a send
(`c.semaphore <- struct{}{}`) completes only while fewer than `concurrency`
tokens are in the channel, a receive (`<-c.semaphore`) completes only while
at least one is.  Any interleaving of the concurrent per-domain goroutines
projects, at the channel, to a sequence of completed sends and receives, so
the channel is embedded as a guarded counter: `semStep` maps an event to
the next number of outstanding tokens, `none` meaning the event blocks and
cannot complete in that state. -/

/-- The fields of the Go `Crawler` struct (the mutex carries no data; the
buffered channel is represented by its capacity). -/
structure Crawler where
  Domains : List String
  RateLimit : Nat
  Concurrency : Nat
  ProductURLs : List (String × List String)
  semCapacity : Nat


/-- Embeds `CreateNewCrawler`: empty product map and a semaphore channel of
capacity `concurrency`. -/
def CreateNewCrawler (domains : List String) (rateLimit concurrency : Nat) : Crawler :=
  { Domains := domains, RateLimit := rateLimit, Concurrency := concurrency,
    ProductURLs := [], semCapacity := concurrency }


/-- One completed channel operation: a send may complete only below
capacity, a receive only when a token is outstanding; a fetch call does not
touch the channel. -/
def semStep (cap held : Nat) : TokenEv → Option Nat
  | TokenEv.acquire => if held < cap then some (held + 1) else none
  | TokenEv.release => if 0 < held then some (held - 1) else none
  | TokenEv.fetch _ => some held


/-- Run a sequence of completed channel operations; `none` if the sequence
is not realizable (some operation would have blocked). -/
def semRun (cap held : Nat) : List TokenEv → Option Nat
  | [] => some held
  | e :: rest =>
    match semStep cap held e with
    | none => none
    | some h => semRun cap h rest


/-! ## Concrete crawl environments used in examples and witnesses -/

/-- Root links to A and B; A links to C: the BFS-ordering example. -/
def bfsGraph : LinkGraph :=
  [("https://x.com", ["https://x.com/a", "https://x.com/b"]),
   ("https://x.com/a", ["https://x.com/c"]),
   ("https://x.com/b", []),
   ("https://x.com/c", [])]


/-- Root links to A twice, so A sits in the frontier twice and its second
occurrence is popped when already visited. -/
def dupGraph : LinkGraph :=
  [("https://x.com", ["https://x.com/a", "https://x.com/a"]),
   ("https://x.com/a", [])]


/-- A product URL extracted twice on the root page and once more on page A. -/
def prodGraph : LinkGraph :=
  [("https://x.com", ["https://x.com/p/1", "https://x.com/a", "https://x.com/p/1"]),
   ("https://x.com/a", ["https://x.com/p/1"])]


/-- A cyclic link graph: root → A → B → A. -/
def cycGraph : LinkGraph :=
  [("https://x.com", ["https://x.com/a"]),
   ("https://x.com/a", ["https://x.com/b"]),
   ("https://x.com/b", ["https://x.com/a"])]


/-- Every URL in the frontier or the visited set is either the seeded root
or classified non-product (product links are never enqueued). -/
def NonProdInv (root : String) (s : CrawlState) : Prop :=
  (∀ u ∈ s.toVisit, u = root ∨ IsProductURL u = false) ∧
    (∀ u ∈ s.visited, u = root ∨ IsProductURL u = false)


/-! ## Lemmas and claim theorems -/

theorem matchHere_iff (pat s : List Char) : matchHere pat s = true ↔ pat <+: s := by
  induction pat generalizing s with
  | nil => simp [matchHere]
  | cons p ps ih =>
    cases s with
    | nil => simp [matchHere]
    | cons c cs =>
      simp [matchHere, List.cons_prefix_cons, ih]


theorem matchSub_iff (pat s : List Char) : matchSub pat s = true ↔ pat <:+: s := by
  induction s with
  | nil =>
    simp [matchSub, List.isEmpty_iff]
  | cons c cs ih =>
    simp [matchSub, matchHere_iff, ih, List.infix_cons_iff]


/-- C3 (counterexample): the claim says `IsProductURL u` is true iff the
*path component* of `u` contains a marker.  The code matches the regex
against the whole URL string, so the URLs `https://x.com/about` and
`https://x.com/about?next=/p/1`, which share the path component `/about`
(with no marker in it), are classified differently: the marker `/p/`
occurring in the *query string* of the second makes it true.  Hence the
classification is not a function of the path component, and the second URL,
whose path contains no marker, is classified true. -/
theorem C3_counterexample :
    IsProductURL "https://x.com/about?next=/p/1" = true ∧
      IsProductURL "https://x.com/about" = false := by
  constructor <;> decide


/-- C3 (amended): `IsProductURL u` is true iff the whole URL *string* `u`
(not only its path component) contains one of the markers `/product/`,
`/item/`, `/p/`, `/dp/` as a substring; it classifies the six example URLs
as the claim states; and it is a pure function (same input, same result). -/
theorem C3_product_classifier :
    (∀ u : String, IsProductURL u = true ↔
      ("/product/".toList <:+: u.toList ∨ "/item/".toList <:+: u.toList ∨
        "/p/".toList <:+: u.toList ∨ "/dp/".toList <:+: u.toList)) ∧
    IsProductURL "https://x.com/product/123" = true ∧
    IsProductURL "/item/9" = true ∧
    IsProductURL "/p/5" = true ∧
    IsProductURL "/dp/ABC" = true ∧
    IsProductURL "https://x.com/about" = false ∧
    IsProductURL "https://x.com/category/shoes" = false ∧
    (∀ u : String, IsProductURL u = IsProductURL u) := by
  refine ⟨fun u => ?_, by decide, by decide, by decide, by decide, by decide, by decide,
    fun u => rfl⟩
  simp [IsProductURL, Bool.or_eq_true, matchSub_iff, or_assoc]


theorem resolveURL_eq_empty (parse : String → Option GoURL)
    (resolveRef : GoURL → GoURL → GoURL) (toStr : GoURL → String) (baseURL href : String)
    (h : parse baseURL = none ∨ parse href = none) :
    resolveURL parse resolveRef toStr baseURL href = "" := by
  rcases h with h | h
  · simp [resolveURL, h]
  · unfold resolveURL
    cases parse baseURL <;> simp [h]


theorem isSameDomain_iff (parse : String → Option GoURL) (baseURL href : String) :
    isSameDomain parse baseURL href = true ↔
      ∃ ub uh : GoURL, parse baseURL = some ub ∧ parse href = some uh ∧
        ub.host = uh.host := by
  unfold isSameDomain
  cases hb : parse baseURL with
  | none => simp [hb]
  | some ub =>
    cases hh : parse href with
    | none => simp
    | some uh => simp [beq_iff_eq]


theorem ParseLinks_foldl_eq (parse : String → Option GoURL)
    (resolveRef : GoURL → GoURL → GoURL) (toStr : GoURL → String)
    (baseURL : String) (anchors acc : List String) :
    anchors.foldl (fun links href =>
        let absoluteURL := resolveURL parse resolveRef toStr baseURL href
        if isSameDomain parse baseURL absoluteURL then links ++ [absoluteURL]
        else links) acc =
      acc ++ (anchors.map (resolveURL parse resolveRef toStr baseURL)).filter
        (isSameDomain parse baseURL) := by
  induction anchors generalizing acc with
  | nil => simp
  | cons a rest ih =>
    simp only [List.foldl_cons, List.map_cons, List.filter_cons]
    by_cases h : isSameDomain parse baseURL (resolveURL parse resolveRef toStr baseURL a) = true
    · simp [h, ih]
    · simp only [Bool.not_eq_true] at h
      simp [h, ih]


/-- C9 (confirmed): URL resolution recovers from malformed input without
raising — for every parser instance and every pair of inputs, `resolveURL`
returns the empty string whenever either input fails to parse, and
`isSameDomain` returns `true` iff both inputs parse and their `Host`
components are equal (so it returns `false`, not an error, on any parse
failure). -/
theorem C9_resolver_error_recovery :
    (∀ (parse : String → Option GoURL) (resolveRef : GoURL → GoURL → GoURL)
      (toStr : GoURL → String) (baseURL href : String),
      (parse baseURL = none ∨ parse href = none) →
        resolveURL parse resolveRef toStr baseURL href = "") ∧
    (∀ (parse : String → Option GoURL) (baseURL href : String),
      isSameDomain parse baseURL href = true ↔
        ∃ ub uh : GoURL, parse baseURL = some ub ∧ parse href = some uh ∧
          ub.host = uh.host) :=
  ⟨fun parse resolveRef toStr baseURL href h =>
      resolveURL_eq_empty parse resolveRef toStr baseURL href h,
    fun parse baseURL href => isSameDomain_iff parse baseURL href⟩


/-- C9 witness: at the concrete parser, a base URL containing a space fails
to parse, so resolution yields the empty string; and the same-host
characterization evaluated at two same-host URLs. -/
theorem C9_witness :
    resolveURL testParse testResolveRef testToStr "https://x .com" "/a" = "" ∧
      (isSameDomain testParse "https://x.com/a" "https://x.com/b" = true ↔
        ∃ ub uh : GoURL, testParse "https://x.com/a" = some ub ∧
          testParse "https://x.com/b" = some uh ∧ ub.host = uh.host) :=
  ⟨C9_resolver_error_recovery.1 testParse testResolveRef testToStr "https://x .com" "/a"
      (Or.inl (by decide)),
    C9_resolver_error_recovery.2 testParse "https://x.com/a" "https://x.com/b"⟩


/-- C5 (confirmed): `ParseLinks` returns exactly the anchors whose
resolution against the base URL is same-host (cross-host links excluded),
in document order and without deduplication: it equals the document-order
map of resolution filtered by `isSameDomain`, where `isSameDomain` holds
iff both URLs parse with equal hosts.  The concrete instance shows a
cross-host anchor dropped and a same-host anchor occurring twice kept
twice. -/
theorem C5_extract_links :
    (∀ (parse : String → Option GoURL) (resolveRef : GoURL → GoURL → GoURL)
      (toStr : GoURL → String) (anchors : List String) (baseURL : String),
      ParseLinks parse resolveRef toStr anchors baseURL =
        (anchors.map (resolveURL parse resolveRef toStr baseURL)).filter
          (isSameDomain parse baseURL)) ∧
    (∀ (parse : String → Option GoURL) (baseURL a : String),
      isSameDomain parse baseURL a = true ↔
        ∃ ub ua : GoURL, parse baseURL = some ub ∧ parse a = some ua ∧
          ub.host = ua.host) ∧
    ParseLinks testParse testResolveRef testToStr
        ["/item/9", "https://other.com/x", "/item/9"] "https://x.com" =
      ["https://x.com/item/9", "https://x.com/item/9"] :=
  ⟨fun parse resolveRef toStr anchors baseURL => by
      simpa [ParseLinks] using
        ParseLinks_foldl_eq parse resolveRef toStr baseURL anchors [],
    fun parse baseURL a => isSameDomain_iff parse baseURL a,
    by decide⟩


/-! ### Characterization of the link loop -/

theorem processLinks_cons (visited : List String) (acc : List String × List String)
    (l : String) (rest : List String) :
    processLinks visited acc (l :: rest) =
      processLinks visited
        (if IsProductURL l then (acc.1 ++ [l], acc.2)
         else if !visited.contains l then (acc.1, acc.2 ++ [l]) else acc) rest := rfl


theorem processLinks_eq (visited ps tv links : List String) :
    processLinks visited (ps, tv) links =
      (ps ++ links.filter (fun l => IsProductURL l),
       tv ++ links.filter (fun l => !IsProductURL l && !visited.contains l)) := by
  induction links generalizing ps tv with
  | nil => simp [processLinks]
  | cons l rest ih =>
    rw [processLinks_cons]
    by_cases hp : IsProductURL l
    · simp only [hp, if_true]
      rw [ih]
      simp [hp, List.filter_cons]
    · simp only [hp, Bool.false_eq_true, if_false]
      by_cases hv : visited.contains l
      · have hv2 : l ∈ visited := by simpa using hv
        simp only [hv, Bool.not_true, if_false]
        rw [ih]
        simp [hp, hv2, List.filter_cons]
      · have hv2 : l ∉ visited := by simpa using hv
        simp only [hv, Bool.not_false, if_true]
        rw [ih]
        simp [hp, hv2, List.filter_cons]


/-! ### Frontier containment and the termination measure -/

theorem mem_allLinks (g : LinkGraph) (p : String × List String) (hp : p ∈ g)
    (l : String) (hl : l ∈ p.2) : l ∈ allLinks g := by
  induction g with
  | nil => simp at hp
  | cons q rest ih =>
    rcases List.mem_cons.mp hp with h1 | h1
    · subst h1; exact List.mem_append_left _ hl
    · exact List.mem_append_right _ (ih h1)


theorem length_le_linkBound (g : LinkGraph) (p : String × List String) (hp : p ∈ g) :
    p.2.length ≤ linkBound g := by
  induction g with
  | nil => simp at hp
  | cons q rest ih =>
    rcases List.mem_cons.mp hp with h1 | h1
    · subst h1; simp [linkBound]
    · have := ih h1
      simp only [linkBound]
      omega


theorem lookupLinks_subset (g : LinkGraph) (u : String) (ls : List String)
    (h : lookupLinks g u = some ls) : ∀ l ∈ ls, l ∈ allLinks g := by
  unfold lookupLinks at h
  cases hf : g.find? (fun p => p.1 == u) with
  | none => rw [hf] at h; exact absurd h (by simp)
  | some p =>
    rw [hf] at h
    have hmem := List.mem_of_find?_eq_some hf
    have hls : ls = p.2 := by simpa using h.symm
    subst hls
    exact fun l hl => mem_allLinks g p hmem l hl


theorem lookupLinks_length (g : LinkGraph) (u : String) (ls : List String)
    (h : lookupLinks g u = some ls) : ls.length ≤ linkBound g := by
  unfold lookupLinks at h
  cases hf : g.find? (fun p => p.1 == u) with
  | none => rw [hf] at h; exact absurd h (by simp)
  | some p =>
    rw [hf] at h
    have hmem := List.mem_of_find?_eq_some hf
    have hls : ls = p.2 := by simpa using h.symm
    subst hls
    exact length_le_linkBound g p hmem


theorem crawlStep_visited (g : LinkGraph) (v rest ps tr : List String) (u : String)
    (ev : List TokenEv) (hv : v.contains u = true) :
    crawlStep g ⟨v, u :: rest, ps, tr, ev⟩ =
      ⟨v, rest, ps, tr, ev ++ [TokenEv.acquire, TokenEv.release]⟩ := by
  simp only [crawlStep, hv, eq_self_iff_true, if_true]


theorem crawlStep_fail (g : LinkGraph) (v rest ps tr : List String) (u : String)
    (ev : List TokenEv) (hv : v.contains u = false) (hl : lookupLinks g u = none) :
    crawlStep g ⟨v, u :: rest, ps, tr, ev⟩ =
      ⟨v ++ [u], rest, ps, tr ++ [u],
        ev ++ [TokenEv.acquire, TokenEv.fetch u, TokenEv.release]⟩ := by
  simp only [crawlStep, hv, Bool.false_eq_true, if_false, hl]


theorem crawlStep_fetch (g : LinkGraph) (v rest ps tr : List String) (u : String)
    (ev : List TokenEv) (links : List String) (hv : v.contains u = false)
    (hl : lookupLinks g u = some links) :
    crawlStep g ⟨v, u :: rest, ps, tr, ev⟩ =
      ⟨v ++ [u],
        rest ++ links.filter (fun l => !IsProductURL l && !(v ++ [u]).contains l),
        ps ++ links.filter (fun l => IsProductURL l), tr ++ [u],
        ev ++ [TokenEv.acquire, TokenEv.fetch u, TokenEv.release]⟩ := by
  simp only [crawlStep, hv, Bool.false_eq_true, if_false, hl]
  rw [processLinks_eq]


theorem crawlStep_progress (g : LinkGraph) (root : String) :
    ∀ s : CrawlState, s.toVisit ≠ [] → CrawlInv g root s →
      CrawlInv g root (crawlStep g s) ∧ meas g root (crawlStep g s) < meas g root s := by
  rintro ⟨v, tv, ps, tr, ev⟩ hne hinv
  obtain ⟨hsub, hnd, htr⟩ := hinv
  simp only [CrawlState.toVisit] at hne hsub
  simp only [CrawlState.visited, CrawlState.fetchTrace] at hnd htr
  cases tv with
  | nil => exact absurd rfl hne
  | cons u rest =>
    have hexp : ∀ x B : Nat, (x + 1) * (B + 1) = x * (B + 1) + B + 1 := by
      intro x B; ring
    by_cases hv : v.contains u
    · rw [crawlStep_visited g v rest ps tr u ev hv]
      refine ⟨⟨fun x hx => hsub x (List.mem_cons_of_mem _ hx), hnd, htr⟩, ?_⟩
      simp [meas]
    · have hvf : v.contains u = false := by simpa using hv
      have hu_mem : u ∈ urlUniverse g root := hsub u (List.mem_cons_self _ _)
      have hu_not : u ∉ v := by simpa using hv
      have hnd' : (v ++ [u]).Nodup := by
        simp [List.nodup_append, hnd, hu_not]
      have hu_in : u ∈ (urlUniverse g root).toFinset \ v.toFinset := by
        simp [hu_mem, hu_not]
      have herase : (urlUniverse g root).toFinset \ (v ++ [u]).toFinset =
          ((urlUniverse g root).toFinset \ v.toFinset).erase u := by
        ext x
        simp only [Finset.mem_sdiff, List.mem_toFinset, List.mem_append,
          List.mem_singleton, Finset.mem_erase]
        tauto
      have hcard : ((urlUniverse g root).toFinset \ v.toFinset).card =
          ((urlUniverse g root).toFinset \ (v ++ [u]).toFinset).card + 1 := by
        rw [herase, Finset.card_erase_of_mem hu_in]
        have hpos : 0 < ((urlUniverse g root).toFinset \ v.toFinset).card :=
          Finset.card_pos.mpr ⟨u, hu_in⟩
        omega
      cases hl : lookupLinks g u with
      | none =>
        rw [crawlStep_fail g v rest ps tr u ev hvf hl]
        refine ⟨⟨fun x hx => hsub x (List.mem_cons_of_mem _ hx), hnd', by rw [htr]⟩, ?_⟩
        simp only [meas, List.length_cons]
        rw [hcard, hexp]
        linarith
      | some links =>
        rw [crawlStep_fetch g v rest ps tr u ev links hvf hl]
        have hlen : (links.filter
            (fun l => !IsProductURL l && !(v ++ [u]).contains l)).length ≤
            linkBound g :=
          le_trans (List.length_filter_le _ _) (lookupLinks_length g u links hl)
        refine ⟨⟨?_, hnd', by rw [htr]⟩, ?_⟩
        · intro x hx
          rcases List.mem_append.mp hx with h1 | h1
          · exact hsub x (List.mem_cons_of_mem _ h1)
          · have hx2 := List.mem_of_mem_filter h1
            exact List.mem_cons_of_mem _ (lookupLinks_subset g u links hl x hx2)
        · simp only [meas, List.length_cons, List.length_append]
          rw [hcard, hexp]
          linarith


theorem crawlLoop_empty (g : LinkGraph) :
    ∀ (n : Nat) (s : CrawlState), s.toVisit = [] → crawlLoop g n s = s := by
  intro n s h
  cases n with
  | zero => rfl
  | succ n => simp [crawlLoop, h]


theorem crawlLoop_done (g : LinkGraph) (root : String) :
    ∀ (n : Nat) (s : CrawlState), CrawlInv g root s → meas g root s ≤ n →
      (crawlLoop g n s).toVisit = [] ∧ CrawlInv g root (crawlLoop g n s) := by
  intro n
  induction n with
  | zero =>
    intro s hinv hm
    have hlen : s.toVisit.length = 0 := by
      unfold meas at hm; omega
    have he : s.toVisit = [] := List.length_eq_zero.mp hlen
    exact ⟨he, hinv⟩
  | succ n ih =>
    intro s hinv hm
    by_cases he : s.toVisit = []
    · rw [crawlLoop_empty g (n + 1) s he]
      exact ⟨he, hinv⟩
    · obtain ⟨hinv2, hlt⟩ := crawlStep_progress g root s he hinv
      have hm2 : meas g root (crawlStep g s) ≤ n := by omega
      have := ih (crawlStep g s) hinv2 hm2
      simpa [crawlLoop, he] using this


theorem crawlLoop_stable (g : LinkGraph) :
    ∀ (n m : Nat) (s : CrawlState), (crawlLoop g n s).toVisit = [] → n ≤ m →
      crawlLoop g m s = crawlLoop g n s := by
  intro n
  induction n with
  | zero =>
    intro m s hdone _
    exact crawlLoop_empty g m s hdone
  | succ n ih =>
    intro m s hdone hnm
    by_cases he : s.toVisit = []
    · rw [crawlLoop_empty g m s he, crawlLoop_empty g (n + 1) s he]
    · cases m with
      | zero => omega
      | succ m =>
        have hstep : ∀ k : Nat, crawlLoop g (k + 1) s = crawlLoop g k (crawlStep g s) := by
          intro k; simp [crawlLoop, he]
        rw [hstep n] at hdone
        rw [hstep m, hstep n]
        exact ih m (crawlStep g s) hdone (by omega)


theorem initState_inv (g : LinkGraph) (domain : String) :
    CrawlInv g ("https://" ++ domain) (initState domain) := by
  refine ⟨?_, List.nodup_nil, rfl⟩
  intro u hu
  simp only [initState, List.mem_singleton] at hu
  subst hu
  exact List.mem_cons_self _ _


theorem crawlStep_nonprod (g : LinkGraph) (root : String) (s : CrawlState)
    (h : NonProdInv root s) : NonProdInv root (crawlStep g s) := by
  obtain ⟨hto, hvis⟩ := h
  obtain ⟨v, tv, ps, tr, ev⟩ := s
  simp only [CrawlState.toVisit, CrawlState.visited] at hto hvis
  cases tv with
  | nil => exact ⟨hto, hvis⟩
  | cons u rest =>
    by_cases hv : v.contains u
    · rw [crawlStep_visited g v rest ps tr u ev hv]
      exact ⟨fun x hx => hto x (List.mem_cons_of_mem _ hx), hvis⟩
    · have hvf : v.contains u = false := by simpa using hv
      cases hl : lookupLinks g u with
      | none =>
        rw [crawlStep_fail g v rest ps tr u ev hvf hl]
        refine ⟨fun x hx => hto x (List.mem_cons_of_mem _ hx), ?_⟩
        intro x hx
        rcases List.mem_append.mp hx with h1 | h1
        · exact hvis x h1
        · rw [List.mem_singleton.mp h1]
          exact hto u (List.mem_cons_self _ _)
      | some links =>
        rw [crawlStep_fetch g v rest ps tr u ev links hvf hl]
        constructor
        · intro x hx
          rcases List.mem_append.mp hx with h1 | h1
          · exact hto x (List.mem_cons_of_mem _ h1)
          · right
            have hfilt := List.of_mem_filter h1
            cases hIs : IsProductURL x with
            | false => rfl
            | true => rw [hIs] at hfilt; simp at hfilt
        · intro x hx
          rcases List.mem_append.mp hx with h1 | h1
          · exact hvis x h1
          · rw [List.mem_singleton.mp h1]
            exact hto u (List.mem_cons_self _ _)


theorem crawlLoop_nonprod (g : LinkGraph) (root : String) :
    ∀ (n : Nat) (s : CrawlState), NonProdInv root s →
      NonProdInv root (crawlLoop g n s) := by
  intro n
  induction n with
  | zero => exact fun s h => h
  | succ n ih =>
    intro s h
    by_cases he : s.toVisit = []
    · rw [crawlLoop_empty g (n + 1) s he]; exact h
    · have hu : crawlLoop g (n + 1) s = crawlLoop g n (crawlStep g s) := by
        simp [crawlLoop, he]
      rw [hu]
      exact ih _ (crawlStep_nonprod g root s h)


theorem semRun_le (cap : Nat) :
    ∀ (ops : List TokenEv) (held h : Nat), held ≤ cap →
      semRun cap held ops = some h → h ≤ cap := by
  intro ops
  induction ops with
  | nil =>
    intro held h hle hrun
    simp only [semRun, Option.some_inj] at hrun
    omega
  | cons e rest ih =>
    intro held h hle hrun
    cases e with
    | acquire =>
      by_cases hc : held < cap
      · simp only [semRun, semStep, hc, if_true] at hrun
        exact ih (held + 1) h (by omega) hrun
      · simp [semRun, semStep, hc] at hrun
    | release =>
      by_cases hc : 0 < held
      · simp only [semRun, semStep, hc, if_true] at hrun
        exact ih (held - 1) h (by omega) hrun
      · simp [semRun, semStep, hc] at hrun
    | fetch u =>
      simp only [semRun, semStep] at hrun
      exact ih held h hle hrun


/-! ## The claims -/

/-- C1 (confirmed): for every finite link graph (the `LinkGraph` type is a
finite association list, and may contain cycles) and every domain, the
traversal reaches an empty frontier with some finite fuel and then never
moves again (termination), the visited set has no duplicates (a URL enters
it at most once), and the fetch trace equals the visited set in order: a
URL is fetched exactly when it first enters the visited set, hence at most
once, and never again once visited.  The cyclic graph root → A → B → A
terminates with each page fetched once. -/
theorem C1_termination_no_revisit :
    (∀ (g : LinkGraph) (domain : String), ∃ n : Nat,
      (CrawlDomain g domain n).toVisit = [] ∧
      (∀ m : Nat, CrawlDomain g domain (n + m) = CrawlDomain g domain n) ∧
      (CrawlDomain g domain n).visited.Nodup ∧
      (CrawlDomain g domain n).fetchTrace = (CrawlDomain g domain n).visited) ∧
    (CrawlDomain cycGraph "x.com" 4).toVisit = [] ∧
    (CrawlDomain cycGraph "x.com" 4).fetchTrace =
      ["https://x.com", "https://x.com/a", "https://x.com/b"] := by
  refine ⟨?_, by decide, by decide⟩
  intro g domain
  obtain ⟨hdone, hsub, hnd, htr⟩ :=
    crawlLoop_done g ("https://" ++ domain) (fuelFor g domain) (initState domain)
      (initState_inv g domain) (le_refl _)
  exact ⟨fuelFor g domain, hdone,
    fun m => crawlLoop_stable g (fuelFor g domain) (fuelFor g domain + m)
      (initState domain) hdone (Nat.le_add_right _ _),
    hnd, htr⟩


/-- C2 (confirmed): the frontier is processed FIFO (head popped, discovered
links appended at the tail — the shape of `crawlStep_fetch`), so for the
root linking to [A, B] and A linking to [C] the fetch order is breadth
first: root, A, B, C — in particular it is not the depth-first order
root, A, C, B, from which the list differs at the third element. -/
theorem C2_bfs_order :
    (CrawlDomain bfsGraph "x.com" 5).fetchTrace =
      ["https://x.com", "https://x.com/a", "https://x.com/b", "https://x.com/c"] := by
  decide


/-- C4 (counterexample): the claim says no token is acquired, even
transiently, while handling an already-visited frontier entry.  In the code
the semaphore send at the top of the loop body precedes the visited check,
so the iteration that pops the second (already-visited) occurrence of A in
`dupGraph` still acquires a token: the event trace ends with an
acquire/release pair that brackets no fetch. -/
theorem C4_counterexample :
    (CrawlDomain dupGraph "x.com" 4).events =
      [TokenEv.acquire, TokenEv.fetch "https://x.com", TokenEv.release,
       TokenEv.acquire, TokenEv.fetch "https://x.com/a", TokenEv.release,
       TokenEv.acquire, TokenEv.release] := by
  decide


/-- C4 (amended): when the popped URL is already visited, the iteration
acquires a token and releases it immediately — no net token is consumed,
no fetch occurs, no state other than the frontier changes — and the
traversal continues with the rest of the frontier. -/
theorem C4_discard_visited (g : LinkGraph) (s : CrawlState) (u : String)
    (rest : List String) (hto : s.toVisit = u :: rest)
    (hv : s.visited.contains u = true) :
    crawlStep g s =
      { s with
          toVisit := rest
          events := s.events ++ [TokenEv.acquire, TokenEv.release] } := by
  obtain ⟨v, tv, ps, tr, ev⟩ := s
  simp only [CrawlState.toVisit] at hto
  simp only [CrawlState.visited] at hv
  subst hto
  exact crawlStep_visited g v rest ps tr u ev hv


/-- C4 witness: the amended statement evaluated on a concrete state whose
frontier head is already visited. -/
theorem C4_witness :
    crawlStep [] ⟨["https://x.com"], ["https://x.com"], [], ["https://x.com"], []⟩ =
      ⟨["https://x.com"], [], [], ["https://x.com"],
        [TokenEv.acquire, TokenEv.release]⟩ :=
  C4_discard_visited [] ⟨["https://x.com"], ["https://x.com"], [], ["https://x.com"], []⟩
    "https://x.com" [] rfl (by decide)


/-- C8 (confirmed): the link loop of `CrawlDomain` records or enqueues each
extracted link exclusively: the product list is extended by exactly the
product-classified links (never enqueued), and the frontier tail by exactly
the non-product links not already in the visited set, each in extraction
order. -/
theorem C8_classify_or_enqueue :
    ∀ visited ps tv links : List String,
      processLinks visited (ps, tv) links =
        (ps ++ links.filter (fun l => IsProductURL l),
         tv ++ links.filter (fun l => !IsProductURL l && !visited.contains l)) :=
  fun visited ps tv links => processLinks_eq visited ps tv links


/-- C10 (confirmed): product-classified URLs are appended to the product
list once per extraction and never deduplicated — in `prodGraph` the same
product URL, extracted twice on the root page and once on page A, appears
three times — and they never enter the visited set: every visited URL is
the seeded root or non-product. -/
theorem C10_product_duplicates :
    (∀ (g : LinkGraph) (domain : String) (n : Nat) (u : String),
      u ∈ (CrawlDomain g domain n).visited →
        u = "https://" ++ domain ∨ IsProductURL u = false) ∧
    (CrawlDomain prodGraph "x.com" 3).products =
      ["https://x.com/p/1", "https://x.com/p/1", "https://x.com/p/1"] ∧
    (CrawlDomain prodGraph "x.com" 3).visited.contains "https://x.com/p/1" = false := by
  refine ⟨?_, by decide, by decide⟩
  intro g domain n u hu
  have hinit : NonProdInv ("https://" ++ domain) (initState domain) := by
    constructor
    · intro x hx
      simp only [initState, List.mem_singleton] at hx
      exact Or.inl hx
    · intro x hx
      simp [initState] at hx
  exact (crawlLoop_nonprod g ("https://" ++ domain) n (initState domain) hinit).2 u hu


/-- C10 witness: the invariant evaluated at the non-product page A of
`prodGraph`, which is in the visited set of the finished crawl. -/
theorem C10_witness :
    "https://x.com/a" = "https://" ++ "x.com" ∨
      IsProductURL "https://x.com/a" = false :=
  C10_product_duplicates.1 prodGraph "x.com" 3 "https://x.com/a" (by decide)


theorem fuelFor_pos (g : LinkGraph) (domain : String) : 0 < fuelFor g domain :=
  Nat.succ_pos _


theorem crawlRun_root_fail (g : LinkGraph) (D : String)
    (hD : lookupLinks g ("https://" ++ D) = none) :
    CrawlDomainRun g D =
      ⟨["https://" ++ D], [], [], ["https://" ++ D],
        [TokenEv.acquire, TokenEv.fetch ("https://" ++ D), TokenEv.release]⟩ := by
  obtain ⟨k, hk⟩ : ∃ k, fuelFor g D = k + 1 :=
    ⟨fuelFor g D - 1, by have := fuelFor_pos g D; omega⟩
  unfold CrawlDomainRun CrawlDomain
  rw [hk]
  have hne : (initState D).toVisit ≠ [] := by simp [initState]
  have hone : crawlLoop g (k + 1) (initState D) =
      crawlLoop g k (crawlStep g (initState D)) := by
    simp [crawlLoop, hne]
  rw [hone]
  have hstep : crawlStep g (initState D) =
      ⟨["https://" ++ D], [], [], ["https://" ++ D],
        [TokenEv.acquire, TokenEv.fetch ("https://" ++ D), TokenEv.release]⟩ := by
    have h := crawlStep_fail g [] [] [] [] ("https://" ++ D) [] rfl hD
    simpa [initState] using h
  rw [hstep]
  exact crawlLoop_empty g k _ rfl


/-- C6 (confirmed): a fetch failure is recovered locally — the iteration
marks the URL visited, releases its token (the events of the iteration are
a balanced acquire / fetch-attempt / release), changes no product state and
continues with the next frontier item — and a domain whose root fetch
fails contributes an empty entry to `RunCrawler` while every configured
domain still runs its traversal to completion (empty final frontier). -/
theorem C6_fetch_failure_resilience :
    (∀ (g : LinkGraph) (v rest ps tr : List String) (u : String) (ev : List TokenEv),
      v.contains u = false → lookupLinks g u = none →
      crawlStep g ⟨v, u :: rest, ps, tr, ev⟩ =
        ⟨v ++ [u], rest, ps, tr ++ [u],
          ev ++ [TokenEv.acquire, TokenEv.fetch u, TokenEv.release]⟩) ∧
    (∀ (g : LinkGraph) (domains : List String) (D : String),
      lookupLinks g ("https://" ++ D) = none →
      RunCrawler g domains D = [] ∧
      ∀ d ∈ domains, RunCrawler g domains d = (CrawlDomainRun g d).products ∧
        (CrawlDomainRun g d).toVisit = []) := by
  constructor
  · exact fun g v rest ps tr u ev hv hl => crawlStep_fail g v rest ps tr u ev hv hl
  · intro g domains D hD
    constructor
    · unfold RunCrawler
      by_cases hmem : domains.contains D
      · simp only [hmem, if_true]
        rw [crawlRun_root_fail g D hD]
      · rw [if_neg hmem]
    · intro d hd
      have hc : domains.contains d = true := by simpa using hd
      refine ⟨by simp only [RunCrawler, hc, if_true], ?_⟩
      exact (crawlLoop_done g ("https://" ++ d) (fuelFor g d) (initState d)
        (initState_inv g d) (le_refl _)).1


/-- C6 witness: over the environment containing only the page of
`https://b.com`, the root fetch of domain `a.com` fails, and `RunCrawler`
still returns with an empty entry for it; the local-recovery equation
evaluated on a concrete failing fetch. -/
theorem C6_witness :
    crawlStep [] ⟨[], ["https://a.com"], [], [], []⟩ =
      ⟨["https://a.com"], [], [], ["https://a.com"],
        [TokenEv.acquire, TokenEv.fetch "https://a.com", TokenEv.release]⟩ ∧
    RunCrawler [("https://b.com", [])] ["a.com", "b.com"] "a.com" = [] :=
  ⟨C6_fetch_failure_resilience.1 [] [] [] [] [] "https://a.com" [] rfl rfl,
    (C6_fetch_failure_resilience.2 [("https://b.com", [])] ["a.com", "b.com"]
      "a.com" (by decide)).1⟩


/-- C7 (confirmed): `CreateNewCrawler` builds one admission channel of
capacity `concurrency` shared by the whole run, and along every realizable
sequence of completed channel operations — every interleaving of the
per-domain traversals projects to one — the number of tokens held never
exceeds that capacity: from any token count within the bound, any completed
run ends (and, applied to each prefix, stays) within the bound. -/
theorem C7_admission_bound :
    ∀ (domains : List String) (rateLimit concurrency : Nat),
      (CreateNewCrawler domains rateLimit concurrency).semCapacity = concurrency ∧
      ∀ (ops : List TokenEv) (held h : Nat), held ≤ concurrency →
        semRun (CreateNewCrawler domains rateLimit concurrency).semCapacity held ops =
          some h →
        h ≤ concurrency := by
  intro domains rateLimit concurrency
  exact ⟨rfl, fun ops held h hle hrun => semRun_le concurrency ops held h hle hrun⟩


/-- C7 witness: with capacity 2, the completed sequence acquire, acquire,
release is realizable and ends with 1 ≤ 2 tokens held. -/
theorem C7_witness :
    semRun (CreateNewCrawler ["a.com"] 10 2).semCapacity 0
        [TokenEv.acquire, TokenEv.acquire, TokenEv.release] = some 1 ∧ (1 : Nat) ≤ 2 :=
  ⟨by decide, (C7_admission_bound ["a.com"] 10 2).2
    [TokenEv.acquire, TokenEv.acquire, TokenEv.release] 0 1 (by decide) (by decide)⟩


end WeCrawler
